import Mathlib

/-!
Shallow embedding of the tcp_pubsub publisher and executor implementation
(src/tcp_pubsub/src/publisher_impl.cpp and src/tcp_pubsub/src/executor_impl.cpp).

Bytes are modelled as `Nat`, byte buffers as `List Nat`, and monotonic-clock time
points as `Int` (nanosecond counts, matching `int64_t lifespan_`).  The on-wire
header struct layout (`tcp_header.h`) is not among the sources; its field offsets
are modelled from the spec (§6, normative wire protocol: 16-byte header,
header_size u16 LE at 0..2, type u8 at 2, reserved u8 at 3, data_size u64 LE at
4..12), while every field *value* written into it is taken from
`Publisher_Impl::send` (publisher_impl.cpp lines 307-312).
-/

namespace TcpPubsub

/-- Modelled from the spec: `MessageContentType::RegularPayload` of `tcp_header.h`
(not in src); the spec fixes `RegularPayload = 0`. -/
def RegularPayload : Nat := 0

/-- Little-endian byte encoding of a 16-bit value (`htole16`). -/
def le16 (n : Nat) : List Nat := [n % 256, n / 256 % 256]

/-- Little-endian byte encoding of a 64-bit value (`htole64`). -/
def le64 (n : Nat) : List Nat :=
  [n % 256, n / 256 % 256, n / 256 ^ 2 % 256, n / 256 ^ 3 % 256,
   n / 256 ^ 4 % 256, n / 256 ^ 5 % 256, n / 256 ^ 6 % 256, n / 256 ^ 7 % 256]

/-- One entry of the `payloads` argument of `Publisher_Impl::send`: a
`std::pair<const char* const, const size_t>`.  A null data pointer is `none`;
a non-null pointer is `some bs` where `bs` is the readable byte sequence
starting at the pointer (of arbitrary length; `memcpy` reads the first
`len` of them). -/
structure Payload where
  data : Option (List Nat)
  len : Nat
deriving DecidableEq

/-- The bytes that `memcpy` would copy for one payload entry: the first `len`
readable bytes for a non-null pointer, nothing for a null one. -/
def payloadBytes (p : Payload) : List Nat :=
  match p.data with
  | some bs => bs.take p.len
  | none => []

/-- `entire_payload_size` of `Publisher_Impl::send`: the sum of the declared
lengths of all payload entries (publisher_impl.cpp lines 288-292). -/
def totalLen (ps : List Payload) : Nat := (ps.map (·.len)).sum

/-- A payload entry whose pointer (when non-null) has at least `len` readable
bytes, so the source's `memcpy` stays in bounds. -/
def payloadReadable (p : Payload) : Bool :=
  match p.data with
  | some bs => decide (p.len ≤ bs.length)
  | none => true

/-- A payload entry as the spec's `send` contract assumes it: a non-null pointer
to exactly `len` bytes, or a null pointer with declared length zero. -/
def validPayload (p : Payload) : Bool :=
  match p.data with
  | some bs => decide (bs.length = p.len)
  | none => decide (p.len = 0)

/-- `std::vector::resize(n)` on a recycled pool buffer currently holding `old`:
contents up to `n` are kept, any newly grown tail is value-initialized to 0.
(`reserve` only affects capacity, never contents.) -/
def resizeVec (old : List Nat) (n : Nat) : List Nat :=
  old.take n ++ List.replicate (n - old.length) 0

/-- Overwrite `bytes.length` bytes of `buf` starting at offset `pos`
(a bounds-respecting `memcpy` into the vector). -/
def writeAt (buf : List Nat) (pos : Nat) (bytes : List Nat) : List Nat :=
  buf.take pos ++ bytes ++ buf.drop (pos + bytes.length)

/-- The payload copy loop of `Publisher_Impl::send` (publisher_impl.cpp lines
315-323): for each entry, only `if (payload.first && (payload.second > 0))`
does it `memcpy` the entry's bytes at `current_position` and advance
`current_position`; otherwise the entry is skipped without advancing. -/
def copyPayloads (buf : List Nat) (pos : Nat) : List Payload → List Nat
  | [] => buf
  | p :: rest =>
    match p.data with
    | some bs =>
      if 0 < p.len then copyPayloads (writeAt buf pos (bs.take p.len)) (pos + p.len) rest
      else copyPayloads buf pos rest
    | none => copyPayloads buf pos rest

/-- The value of `current_position` after the copy loop of
`Publisher_Impl::send` has processed the given entries. -/
def copyEndPos (pos : Nat) : List Payload → Nat
  | [] => pos
  | p :: rest =>
    match p.data with
    | some _ => if 0 < p.len then copyEndPos (pos + p.len) rest else copyEndPos pos rest
    | none => copyEndPos pos rest

/-- The buffer-preparation section of `Publisher_Impl::send` (publisher_impl.cpp
lines 282-324): resize the checked-out pool buffer (previous contents `old`) to
`sizeof(TcpHeader) + entire_payload_size`, fill the header fields
(`header_size = htole16(16)`, `type = RegularPayload`, `reserved = 0`,
`data_size = htole64(entire_payload_size)`; offsets from the spec's wire
layout), then run the payload copy loop starting at `current_position = 16`. -/
def sendFillBuffer (old : List Nat) (ps : List Payload) : List Nat :=
  let header_size : Nat := 16
  let entire_payload_size := totalLen ps
  let complete_size := header_size + entire_payload_size
  let buf0 := resizeVec old complete_size
  let buf1 := writeAt buf0 0 (le16 16)
  let buf2 := writeAt buf1 2 [RegularPayload]
  let buf3 := writeAt buf2 3 [0]
  let buf4 := writeAt buf3 4 (le64 entire_payload_size)
  copyPayloads buf4 16 ps

/-- The first twelve bytes of every frame built by `Publisher_Impl::send`,
as a function of `entire_payload_size`. -/
def headerBytes (t : Nat) : List Nat := le16 16 ++ RegularPayload :: 0 :: le64 t

/-! ### Basic lemmas about the buffer primitives -/

theorem resizeVec_length (old : List Nat) (n : Nat) : (resizeVec old n).length = n := by
  simp [resizeVec]
  omega

theorem writeAt_length (buf : List Nat) (pos : Nat) (a : List Nat)
    (h : pos + a.length ≤ buf.length) : (writeAt buf pos a).length = buf.length := by
  simp [writeAt]
  omega

theorem writeAt_nil (buf : List Nat) (pos : Nat) : writeAt buf pos [] = buf := by
  simp [writeAt]

theorem writeAt_zero (buf : List Nat) (a : List Nat) :
    writeAt buf 0 a = a ++ buf.drop a.length := by
  simp [writeAt]

theorem writeAt_cons (b : Nat) (buf : List Nat) (pos : Nat) (a : List Nat) :
    writeAt (b :: buf) (pos + 1) a = b :: writeAt buf pos a := by
  have h : pos + 1 + a.length = pos + a.length + 1 := by omega
  simp [writeAt, h]

theorem writeAt_writeAt (a c : List Nat) (pos : Nat) :
    ∀ buf : List Nat, pos ≤ buf.length →
      writeAt (writeAt buf pos a) (pos + a.length) c = writeAt buf pos (a ++ c) := by
  induction pos with
  | zero =>
    intro buf _
    rw [writeAt_zero, writeAt_zero, Nat.zero_add]
    rw [writeAt]
    rw [List.take_append_eq_append_take, List.drop_append_eq_append_drop]
    have h1 : a.take a.length = a := List.take_length a
    have h2 : a.length - a.length = 0 := by omega
    have h3 : a.drop (a.length + c.length) = [] := List.drop_eq_nil_of_le (by omega)
    rw [h1, h2, h3, List.take_zero, List.append_nil, List.nil_append, List.drop_drop]
    have h4 : a.length + c.length - a.length = c.length := by omega
    rw [h4]
    simp [List.length_append]
  | succ n ih =>
    intro buf h
    match buf with
    | [] => simp at h
    | b :: buf =>
      rw [writeAt_cons, show n + 1 + a.length = n + a.length + 1 from by omega, writeAt_cons,
        ih buf (by simpa using h), writeAt_cons]

/-- The byte concatenation of a list of payload entries, in argument order
(null or zero-length entries contribute nothing). -/
def payloadConcat (ps : List Payload) : List Nat := (ps.map payloadBytes).flatten

/-! ### Publisher state and the send operation -/

/-- `PublisherTransientLocalSetting`: `buffer_max_count_` is a `size_t`,
`lifespan_` an `int64_t` nanosecond count (0 disables age eviction). -/
structure TransientLocalSetting where
  buffer_max_count : Nat
  lifespan : Int
deriving DecidableEq

/-- `Publisher_Impl::TransientLocalElement`: a retained frame together with its
monotonic enqueue time point. -/
structure TransientLocalElement where
  buffer : List Nat
  enqueue_tp : Int
deriving DecidableEq

/-- The publisher state touched by `send` and the replay handler: the `running`
flag, the session set (session ids), the transient-local setting and the
retained-frame list. -/
structure PubState where
  is_running : Bool
  sessions : List Nat
  setting : TransientLocalSetting
  transient_local : List TransientLocalElement
deriving DecidableEq

inductive LogLevel
  | error
  | info
  | debug
  | debugVerbose
deriving DecidableEq

/-- `Publisher_Impl::purgeExpiredTransientLocalBuffers` (publisher_impl.cpp lines
354-362): pop the front while the list is longer than `buffer_max_count_`, or
while `lifespan_ > 0` and the front entry's age (in nanoseconds) strictly
exceeds `lifespan_`. -/
def purgeExpiredTransientLocalBuffers (s : TransientLocalSetting) (now : Int) :
    List TransientLocalElement → List TransientLocalElement
  | [] => []
  | e :: rest =>
    if s.buffer_max_count < (e :: rest).length ∨
        (0 < s.lifespan ∧ s.lifespan < now - e.enqueue_tp) then
      purgeExpiredTransientLocalBuffers s now rest
    else
      e :: rest

/-- What one call to `Publisher_Impl::send` produces, beyond its boolean result:
whether a pool buffer was checked out, the buffer dispatched (via
`sendDataBuffer`) to every session of the session set (or `none` when nothing
was dispatched), the post-call publisher state, and the non-debug log records
emitted. -/
structure SendOutcome where
  result : Bool
  allocated : Bool
  dispatched : Option (List Nat)
  state : PubState
  logs : List LogLevel
deriving DecidableEq

/-- `Publisher_Impl::send` (publisher_impl.cpp lines 252-352).  `old` is the
previous content of the recycled pool buffer that `buffer_pool.allocate()`
returns; `now` is the `steady_clock::now()` value read in the transient-local
block.  Not running: log an Error and return false.  Transient-local disabled
and no session connected: return true without touching the pool.  Otherwise
prepare the frame, hand it to every session, and, when transient-local is
enabled, append it (stamped `now`) and purge with the same time point. -/
def sendModel (st : PubState) (old : List Nat) (now : Int) (ps : List Payload) :
    SendOutcome :=
  if st.is_running = false then
    { result := false, allocated := false, dispatched := none, state := st,
      logs := [LogLevel.error] }
  else if st.setting.buffer_max_count = 0 ∧ st.sessions = [] then
    { result := true, allocated := false, dispatched := none, state := st, logs := [] }
  else
    let buffer := sendFillBuffer old ps
    let st' :=
      if 0 < st.setting.buffer_max_count then
        { st with transient_local := (purgeExpiredTransientLocalBuffers
            st.setting now (st.transient_local ++ [⟨buffer, now⟩])) }
      else st
    { result := true, allocated := true, dispatched := some buffer, state := st',
      logs := [] }

/-- The `transient_local_push_handler` installed on every accepted session
(publisher_impl.cpp lines 183-212), run once the session's handshake finishes:
nothing when the feature is off; otherwise purge, snapshot the retained
buffers, and push their concatenation to the session unless it is empty.
Returns the post-call publisher state and the buffer pushed via
`pushTransientBuffer`, if any. -/
def transientLocalPushHandler (st : PubState) (now : Int) :
    PubState × Option (List Nat) :=
  if st.setting.buffer_max_count = 0 then
    (st, none)
  else
    let purged := purgeExpiredTransientLocalBuffers st.setting now st.transient_local
    let buffers_to_send := purged.map (·.buffer)
    let st' := { st with transient_local := purged }
    if buffers_to_send.isEmpty then
      (st', none)
    else
      let big_buffer := buffers_to_send.flatten
      if big_buffer.isEmpty then (st', none)
      else (st', some big_buffer)

/-! ### Characterizing the copy loop -/

theorem length_payloadBytes (p : Payload) (h : payloadReadable p = true) :
    (payloadBytes p).length = (if p.data.isSome then p.len else 0) := by
  cases hp : p.data with
  | none => simp [payloadBytes, hp]
  | some bs =>
    simp only [payloadReadable, hp, decide_eq_true_eq] at h
    simp [payloadBytes, hp]
    omega

theorem validPayload_readable (p : Payload) (h : validPayload p = true) :
    payloadReadable p = true := by
  cases hp : p.data with
  | none => simp [payloadReadable, hp]
  | some bs =>
    simp only [validPayload, hp, decide_eq_true_eq] at h
    simp [payloadReadable, hp]
    omega

theorem length_payloadBytes_le (p : Payload) : (payloadBytes p).length ≤ p.len := by
  cases hp : p.data <;> simp [payloadBytes, hp]

theorem length_payloadConcat_le (ps : List Payload) :
    (payloadConcat ps).length ≤ totalLen ps := by
  induction ps with
  | nil => simp [payloadConcat, totalLen]
  | cons p rest ih =>
    have hp := length_payloadBytes_le p
    simp only [payloadConcat, totalLen, List.map_cons, List.flatten_cons, List.sum_cons,
      List.length_append] at *
    omega

theorem length_payloadBytes_valid (p : Payload) (h : validPayload p = true) :
    (payloadBytes p).length = p.len := by
  cases hp : p.data with
  | none =>
    simp only [validPayload, hp, decide_eq_true_eq] at h
    simp [payloadBytes, hp, h]
  | some bs =>
    simp only [validPayload, hp, decide_eq_true_eq] at h
    simp [payloadBytes, hp]
    omega

theorem length_payloadConcat (ps : List Payload)
    (h : ∀ p ∈ ps, validPayload p = true) :
    (payloadConcat ps).length = totalLen ps := by
  induction ps with
  | nil => simp [payloadConcat, totalLen]
  | cons p rest ih =>
    have hp := length_payloadBytes_valid p (h p (by simp))
    have hrest := ih (fun q hq => h q (by simp [hq]))
    simp only [payloadConcat, totalLen, List.map_cons, List.flatten, List.sum_cons,
      List.length_append] at *
    omega

theorem copyPayloads_eq_writeAt (ps : List Payload) :
    ∀ (buf : List Nat) (pos : Nat),
      (∀ p ∈ ps, payloadReadable p = true) →
      pos + (payloadConcat ps).length ≤ buf.length →
      copyPayloads buf pos ps = writeAt buf pos (payloadConcat ps) := by
  induction ps with
  | nil =>
    intro buf pos _ _
    simp [copyPayloads, payloadConcat, writeAt_nil]
  | cons p rest ih =>
    intro buf pos h hb
    have hrest : ∀ q ∈ rest, payloadReadable q = true := fun q hq => h q (by simp [hq])
    have hcat : payloadConcat (p :: rest) = payloadBytes p ++ payloadConcat rest := by
      simp [payloadConcat]
    cases hd : p.data with
    | none =>
      have hpb : payloadBytes p = [] := by simp [payloadBytes, hd]
      rw [hcat, hpb, List.nil_append] at hb ⊢
      simp only [copyPayloads, hd]
      exact ih buf pos hrest (by simpa using hb)
    | some bs =>
      have hread : p.len ≤ bs.length := by
        have := h p (by simp)
        simpa [payloadReadable, hd] using this
      have hpb : payloadBytes p = bs.take p.len := by simp [payloadBytes, hd]
      have hpblen : (bs.take p.len).length = p.len := by simp; omega
      rw [hcat, hpb] at hb ⊢
      simp only [List.length_append, hpblen] at hb
      by_cases hl : 0 < p.len
      · simp only [copyPayloads, hd, if_pos hl]
        have hwlen : (writeAt buf pos (bs.take p.len)).length = buf.length :=
          writeAt_length buf pos _ (by omega)
        rw [ih (writeAt buf pos (bs.take p.len)) (pos + p.len) hrest (by omega)]
        have := writeAt_writeAt (bs.take p.len) (payloadConcat rest) pos buf (by omega)
        rw [hpblen] at this
        exact this
      · have hz : p.len = 0 := by omega
        have htz : bs.take p.len = [] := by simp [hz]
        simp only [copyPayloads, hd, if_neg hl]
        rw [htz, List.nil_append]
        exact ih buf pos hrest (by omega)

theorem copyEndPos_eq (ps : List Payload) :
    ∀ pos : Nat, (∀ p ∈ ps, payloadReadable p = true) →
      copyEndPos pos ps = pos + (payloadConcat ps).length := by
  induction ps with
  | nil => intro pos _; simp [copyEndPos, payloadConcat]
  | cons p rest ih =>
    intro pos h
    have hrest : ∀ q ∈ rest, payloadReadable q = true := fun q hq => h q (by simp [hq])
    have hcat : (payloadConcat (p :: rest)).length
        = (payloadBytes p).length + (payloadConcat rest).length := by
      simp [payloadConcat]
    cases hd : p.data with
    | none =>
      have hpb : (payloadBytes p).length = 0 := by simp [payloadBytes, hd]
      simp only [copyEndPos, hd]
      rw [ih pos hrest, hcat, hpb]
      omega
    | some bs =>
      have hread : p.len ≤ bs.length := by
        have := h p (by simp)
        simpa [payloadReadable, hd] using this
      have hpb : (payloadBytes p).length = p.len := by simp [payloadBytes, hd]; omega
      by_cases hl : 0 < p.len
      · simp only [copyEndPos, hd, if_pos hl]
        rw [ih (pos + p.len) hrest, hcat, hpb]
        omega
      · simp only [copyEndPos, hd, if_neg hl]
        rw [ih pos hrest, hcat, hpb]
        omega

theorem fillHeader_eq (buf0 : List Nat) (t : Nat) :
    writeAt (writeAt (writeAt (writeAt buf0 0 (le16 16)) 2 [RegularPayload]) 3 [0]) 4 (le64 t)
      = headerBytes t ++ buf0.drop 12 := by
  have hle : le16 16 = [16, 0] := by simp [le16]
  have e1 := writeAt_writeAt (le16 16) [RegularPayload] 0 buf0 (Nat.zero_le _)
  have e2 := writeAt_writeAt (le16 16 ++ [RegularPayload]) [0] 0 buf0 (Nat.zero_le _)
  have e3 := writeAt_writeAt ((le16 16 ++ [RegularPayload]) ++ [0]) (le64 t) 0 buf0 (Nat.zero_le _)
  simp only [hle, List.length_append, List.length_cons, List.length_nil, Nat.zero_add] at e1 e2 e3
  norm_num at e1 e2 e3
  rw [hle, e1, e2, e3, writeAt_zero]
  have hhb : headerBytes t = 16 :: 0 :: RegularPayload :: 0 :: le64 t := by
    simp [headerBytes, le16]
  rw [hhb]
  have hlen : (16 :: 0 :: RegularPayload :: 0 :: le64 t).length = 12 := by simp [le64]
  rw [hlen]

/-- The full shape of the frame buffer built by `Publisher_Impl::send`: the
twelve written header bytes, then bytes 12..16 of the resized pool buffer
(the header struct's trailing reserved area, never written by the source),
then the bytes the copy loop wrote, then whatever of the resized pool buffer
the copy loop did not reach. -/
theorem sendFillBuffer_shape (old : List Nat) (ps : List Payload)
    (h : ∀ p ∈ ps, payloadReadable p = true) :
    sendFillBuffer old ps =
      headerBytes (totalLen ps)
        ++ ((resizeVec old (16 + totalLen ps)).drop 12).take 4
        ++ payloadConcat ps
        ++ ((resizeVec old (16 + totalLen ps)).drop 12).drop
             (4 + (payloadConcat ps).length) := by
  have hstart : sendFillBuffer old ps
      = copyPayloads (writeAt (writeAt (writeAt (writeAt
          (resizeVec old (16 + totalLen ps)) 0 (le16 16)) 2 [RegularPayload]) 3 [0]) 4
          (le64 (totalLen ps))) 16 ps := rfl
  rw [hstart, fillHeader_eq]
  have hRlen : ((resizeVec old (16 + totalLen ps)).drop 12).length = 4 + totalLen ps := by
    rw [List.length_drop, resizeVec_length]
    omega
  have hHlen : (headerBytes (totalLen ps)).length = 12 := by simp [headerBytes, le16, le64]
  have hJle : (payloadConcat ps).length ≤ totalLen ps := length_payloadConcat_le ps
  have hbuf4len : (headerBytes (totalLen ps) ++ (resizeVec old (16 + totalLen ps)).drop 12).length
      = 16 + totalLen ps := by
    rw [List.length_append, hHlen, hRlen]
    omega
  rw [copyPayloads_eq_writeAt ps _ 16 h (by omega)]
  rw [writeAt, List.take_append_eq_append_take, List.drop_append_eq_append_drop, hHlen]
  rw [List.take_of_length_le (by omega : (headerBytes (totalLen ps)).length ≤ 16)]
  rw [List.drop_eq_nil_of_le
    (by omega : (headerBytes (totalLen ps)).length ≤ 16 + (payloadConcat ps).length)]
  have h1 : (16 : Nat) - 12 = 4 := by omega
  have h2 : 16 + (payloadConcat ps).length - 12 = 4 + (payloadConcat ps).length := by omega
  rw [h1, h2, List.nil_append, List.append_assoc, List.append_assoc]

/-! ### Claim C1 -/

/-- C1: for every call to `Publisher_Impl::send` with the publisher running, at
least one session or transient-local enabled, and every payload entry of
nonzero length having a non-null data pointer (`validPayload`), the single
buffer handed to every session is: a header whose header_size field equals 16
encoded little-endian, whose type byte equals RegularPayload (0), whose
reserved byte equals 0, and whose data_size field equals the sum of all payload
lengths encoded little-endian at offset 4..12 of a 16-byte header, followed
immediately by the exact byte concatenation of the payloads in argument
order. -/
theorem c1_send_frame_layout (st : PubState) (old : List Nat) (now : Int)
    (ps : List Payload)
    (hrun : st.is_running = true)
    (hsub : st.sessions ≠ [] ∨ 0 < st.setting.buffer_max_count)
    (hval : ∀ p ∈ ps, validPayload p = true) :
    (sendModel st old now ps).dispatched = some (sendFillBuffer old ps)
      ∧ (sendFillBuffer old ps).take 2 = le16 16
      ∧ (sendFillBuffer old ps)[2]? = some RegularPayload
      ∧ (sendFillBuffer old ps)[3]? = some 0
      ∧ ((sendFillBuffer old ps).drop 4).take 8 = le64 (totalLen ps)
      ∧ (sendFillBuffer old ps).drop 16 = payloadConcat ps
      ∧ (sendFillBuffer old ps).length = 16 + totalLen ps := by
  have hread : ∀ p ∈ ps, payloadReadable p = true :=
    fun p hp => validPayload_readable p (hval p hp)
  have hJlen : (payloadConcat ps).length = totalLen ps := length_payloadConcat ps hval
  have hRlen : ((resizeVec old (16 + totalLen ps)).drop 12).length = 4 + totalLen ps := by
    rw [List.length_drop, resizeVec_length]
    omega
  have hdropnil : ((resizeVec old (16 + totalLen ps)).drop 12).drop
      (4 + (payloadConcat ps).length) = [] :=
    List.drop_eq_nil_of_le (by omega)
  have hshape := sendFillBuffer_shape old ps hread
  rw [hdropnil, List.append_nil] at hshape
  have hhb : headerBytes (totalLen ps)
      = 16 :: 0 :: RegularPayload :: 0 :: le64 (totalLen ps) := by
    simp [headerBytes, le16]
  rw [hhb] at hshape
  have hR4len : (((resizeVec old (16 + totalLen ps)).drop 12).take 4).length = 4 := by
    rw [List.length_take]
    omega
  have hle64len : (le64 (totalLen ps)).length = 8 := by simp [le64]
  have hnotsc : ¬(st.setting.buffer_max_count = 0 ∧ st.sessions = []) := by
    rcases hsub with h1 | h2
    · exact fun hc => h1 hc.2
    · exact fun hc => by omega
  refine ⟨?_, ?_, ?_, ?_, ?_, ?_, ?_⟩
  · simp [sendModel, hrun, hnotsc]
  · rw [hshape]
    simp [le16]
  · rw [hshape]
    simp
  · rw [hshape]
    simp
  · rw [hshape]
    have e3 : (le64 (totalLen ps)).take 8 = le64 (totalLen ps) :=
      List.take_of_length_le (by omega)
    simp [List.take_append_eq_append_take, hle64len, e3]
  · rw [hshape]
    have e1 : (le64 (totalLen ps)).drop 12 = [] := List.drop_eq_nil_of_le (by omega)
    have e2 : (((resizeVec old (16 + totalLen ps)).drop 12).take 4).drop 4 = [] :=
      List.drop_eq_nil_of_le (by omega)
    simp [List.drop_append_eq_append_drop, hle64len, hR4len, e1, e2]
  · rw [hshape]
    simp only [List.length_append, List.length_cons, hle64len, hR4len, hJlen]
    try omega

/-- A concrete running publisher with one session, transient-local disabled. -/
def wSt : PubState := ⟨true, [1], ⟨0, 0⟩, []⟩

/-- A concrete recycled pool buffer with stale contents. -/
def wOld : List Nat := [9, 9, 9, 9, 9, 9, 9, 9, 9, 9, 9, 9, 9, 9, 9, 9, 9, 9, 9, 9]

/-- Concrete payloads: three bytes, a null empty entry, two bytes. -/
def wPs : List Payload := [⟨some [1, 2, 3], 3⟩, ⟨none, 0⟩, ⟨some [4, 5], 2⟩]

theorem c1_send_frame_layout_witness :
    (sendModel wSt wOld 0 wPs).dispatched = some (sendFillBuffer wOld wPs)
      ∧ (sendFillBuffer wOld wPs).take 2 = le16 16
      ∧ (sendFillBuffer wOld wPs)[2]? = some RegularPayload
      ∧ (sendFillBuffer wOld wPs)[3]? = some 0
      ∧ ((sendFillBuffer wOld wPs).drop 4).take 8 = le64 (totalLen wPs)
      ∧ (sendFillBuffer wOld wPs).drop 16 = payloadConcat wPs
      ∧ (sendFillBuffer wOld wPs).length = 16 + totalLen wPs :=
  c1_send_frame_layout wSt wOld 0 wPs (by decide) (Or.inl (by decide)) (by decide)

/-! ### Claim C10 -/

theorem length_payloadConcat_lt (ps : List Payload)
    (hnull : ∃ p ∈ ps, p.data = none ∧ 0 < p.len) :
    (payloadConcat ps).length < totalLen ps := by
  induction ps with
  | nil => simp at hnull
  | cons p rest ih =>
    rcases hnull with ⟨q, hq, hqd, hql⟩
    simp only [List.mem_cons] at hq
    have hple := length_payloadBytes_le p
    have hrle := length_payloadConcat_le rest
    rcases hq with rfl | hq
    · have hz : (payloadBytes q).length = 0 := by simp [payloadBytes, hqd]
      simp only [payloadConcat, totalLen, List.map_cons, List.flatten_cons, List.sum_cons,
        List.length_append] at *
      omega
    · have hlt := ih ⟨q, hq, hqd, hql⟩
      simp only [payloadConcat, totalLen, List.map_cons, List.flatten_cons, List.sum_cons,
        List.length_append] at *
      omega

/-- C10: on a running publisher (frame actually built), when some payload entry
has a null data pointer and a nonzero declared length, `send` still returns
true and the frame's data_size field still counts that entry's length, but the
copy loop skips the entry without advancing `current_position`, so the loop
ends short of the nominal frame end, the frame body is not the concatenation of
the supplied payloads, and every byte from the loop's final position onward is
whatever the recycled (resized) pool buffer already held there. -/
theorem c10_null_payload_corruption (st : PubState) (old : List Nat) (now : Int)
    (ps : List Payload)
    (hrun : st.is_running = true)
    (hsub : st.sessions ≠ [] ∨ 0 < st.setting.buffer_max_count)
    (hread : ∀ p ∈ ps, payloadReadable p = true)
    (hnull : ∃ p ∈ ps, p.data = none ∧ 0 < p.len) :
    (sendModel st old now ps).result = true
      ∧ (sendModel st old now ps).dispatched = some (sendFillBuffer old ps)
      ∧ ((sendFillBuffer old ps).drop 4).take 8 = le64 (totalLen ps)
      ∧ copyEndPos 16 ps = 16 + (payloadConcat ps).length
      ∧ (payloadConcat ps).length < totalLen ps
      ∧ (sendFillBuffer old ps).drop 16 ≠ payloadConcat ps
      ∧ (sendFillBuffer old ps).drop (copyEndPos 16 ps)
          = (resizeVec old (16 + totalLen ps)).drop (copyEndPos 16 ps) := by
  have hJle : (payloadConcat ps).length ≤ totalLen ps := length_payloadConcat_le ps
  have hJlt : (payloadConcat ps).length < totalLen ps := length_payloadConcat_lt ps hnull
  have hRlen : ((resizeVec old (16 + totalLen ps)).drop 12).length = 4 + totalLen ps := by
    rw [List.length_drop, resizeVec_length]
    omega
  have hR4len : (((resizeVec old (16 + totalLen ps)).drop 12).take 4).length = 4 := by
    rw [List.length_take]
    omega
  have hHlen : (headerBytes (totalLen ps)).length = 12 := by simp [headerBytes, le16, le64]
  have hle64len : (le64 (totalLen ps)).length = 8 := by simp [le64]
  have hshape := sendFillBuffer_shape old ps hread
  have hhb : headerBytes (totalLen ps)
      = 16 :: 0 :: RegularPayload :: 0 :: le64 (totalLen ps) := by
    simp [headerBytes, le16]
  have hlenr : (sendFillBuffer old ps).length = 16 + totalLen ps := by
    rw [hshape]
    simp only [List.length_append, hHlen, hR4len, List.length_drop, hRlen]
    omega
  have hnotsc : ¬(st.setting.buffer_max_count = 0 ∧ st.sessions = []) := by
    rcases hsub with h1 | h2
    · exact fun hc => h1 hc.2
    · exact fun hc => by omega
  have hend := copyEndPos_eq ps 16 hread
  refine ⟨?_, ?_, ?_, hend, hJlt, ?_, ?_⟩
  · simp [sendModel, hrun, hnotsc]
  · simp [sendModel, hrun, hnotsc]
  · rw [hshape, hhb]
    have e3 : (le64 (totalLen ps)).take 8 = le64 (totalLen ps) :=
      List.take_of_length_le (by omega)
    simp [List.take_append_eq_append_take, hle64len, e3]
  · intro heq
    have hlen := congrArg List.length heq
    rw [List.length_drop, hlenr] at hlen
    omega
  · rw [hend, hshape]
    have hPlen : ((headerBytes (totalLen ps)
        ++ ((resizeVec old (16 + totalLen ps)).drop 12).take 4) ++ payloadConcat ps).length
        = 16 + (payloadConcat ps).length := by
      simp only [List.length_append, hHlen, hR4len]
      try omega
    rw [List.drop_append_eq_append_drop, List.drop_eq_nil_of_le (le_of_eq hPlen),
      hPlen, Nat.sub_self, List.drop_zero, List.nil_append, List.drop_drop]
    have h6 : 12 + (4 + (payloadConcat ps).length) = 16 + (payloadConcat ps).length := by
      omega
    rw [h6]

/-- Concrete payloads with a null, nonzero-length entry in the middle. -/
def wPsNull : List Payload := [⟨some [1, 2], 2⟩, ⟨none, 3⟩, ⟨some [4], 1⟩]

theorem c10_null_payload_corruption_witness :
    (sendModel wSt wOld 0 wPsNull).result = true
      ∧ (sendModel wSt wOld 0 wPsNull).dispatched = some (sendFillBuffer wOld wPsNull)
      ∧ ((sendFillBuffer wOld wPsNull).drop 4).take 8 = le64 (totalLen wPsNull)
      ∧ copyEndPos 16 wPsNull = 16 + (payloadConcat wPsNull).length
      ∧ (payloadConcat wPsNull).length < totalLen wPsNull
      ∧ (sendFillBuffer wOld wPsNull).drop 16 ≠ payloadConcat wPsNull
      ∧ (sendFillBuffer wOld wPsNull).drop (copyEndPos 16 wPsNull)
          = (resizeVec wOld (16 + totalLen wPsNull)).drop (copyEndPos 16 wPsNull) :=
  c10_null_payload_corruption wSt wOld 0 wPsNull (by decide) (Or.inl (by decide))
    (by decide) (by decide)

/-! ### Claim C3 -/

/-- C3: after every eviction pass (`purgeExpiredTransientLocalBuffers`, run on
every enqueue in `send` and on every new-subscriber replay), the
transient-local buffer holds at most `buffer_max_count` entries; when
`lifespan = L > 0`, no remaining entry's age at the pass's time point exceeds
`L`; lifespan `≤ 0` disables age eviction (the pass is then pure count-based
front-dropping); and the enqueue time points of the remaining entries are
still nondecreasing. -/
theorem c3_purge_invariants (s : TransientLocalSetting) (now : Int)
    (l : List TransientLocalElement)
    (hsort : l.Pairwise (fun a b => a.enqueue_tp ≤ b.enqueue_tp)) :
    (purgeExpiredTransientLocalBuffers s now l).length ≤ s.buffer_max_count
      ∧ (0 < s.lifespan → ∀ e ∈ purgeExpiredTransientLocalBuffers s now l,
          now - e.enqueue_tp ≤ s.lifespan)
      ∧ (s.lifespan ≤ 0 → purgeExpiredTransientLocalBuffers s now l
          = l.drop (l.length - s.buffer_max_count))
      ∧ (purgeExpiredTransientLocalBuffers s now l).Pairwise
          (fun a b => a.enqueue_tp ≤ b.enqueue_tp) := by
  induction l with
  | nil =>
    simp [purgeExpiredTransientLocalBuffers]
  | cons e rest ih =>
    cases hsort with
    | cons hhead htail =>
      have ihr := ih htail
      by_cases hc : s.buffer_max_count < (e :: rest).length
          ∨ (0 < s.lifespan ∧ s.lifespan < now - e.enqueue_tp)
      · simp only [purgeExpiredTransientLocalBuffers, if_pos hc]
        refine ⟨ihr.1, ihr.2.1, ?_, ihr.2.2.2⟩
        intro hls
        rw [ihr.2.2.1 hls]
        have hcnt : s.buffer_max_count < rest.length + 1 := by
          rcases hc with h1 | h2
          · simpa using h1
          · omega
        have hidx : (e :: rest).length - s.buffer_max_count
            = (rest.length - s.buffer_max_count) + 1 := by
          simp only [List.length_cons]
          omega
        rw [hidx, List.drop_succ_cons]
      · simp only [purgeExpiredTransientLocalBuffers, if_neg hc]
        push_neg at hc
        refine ⟨by simpa using hc.1, ?_, ?_, List.Pairwise.cons hhead htail⟩
        · intro hls e' he'
          have hfront : now - e.enqueue_tp ≤ s.lifespan := hc.2 hls
          rcases List.mem_cons.mp he' with rfl | hmem
          · exact hfront
          · have := hhead e' hmem
            omega
        · intro _
          have hz : (e :: rest).length - s.buffer_max_count = 0 := by
            have := hc.1
            simp only [List.length_cons] at this ⊢
            omega
          rw [hz, List.drop_zero]

/-- A concrete transient-local setting: keep at most 2 entries, 5 ns lifespan. -/
def wSetting : TransientLocalSetting := ⟨2, 5⟩

/-- A concrete retained-buffer list with nondecreasing enqueue time points. -/
def wBuffers : List TransientLocalElement := [⟨[1], 90⟩, ⟨[2], 97⟩, ⟨[3], 99⟩]

theorem c3_purge_invariants_witness :
    (purgeExpiredTransientLocalBuffers wSetting 100 wBuffers).length
        ≤ wSetting.buffer_max_count
      ∧ (0 < wSetting.lifespan → ∀ e ∈ purgeExpiredTransientLocalBuffers wSetting 100 wBuffers,
          (100 : Int) - e.enqueue_tp ≤ wSetting.lifespan)
      ∧ (wSetting.lifespan ≤ 0 → purgeExpiredTransientLocalBuffers wSetting 100 wBuffers
          = wBuffers.drop (wBuffers.length - wSetting.buffer_max_count))
      ∧ (purgeExpiredTransientLocalBuffers wSetting 100 wBuffers).Pairwise
          (fun a b => a.enqueue_tp ≤ b.enqueue_tp) :=
  c3_purge_invariants wSetting 100 wBuffers (by decide)

/-! ### Claim C2 -/

/-- C2: when the replay handler runs with `buffer_max_count = 0` it touches
nothing and pushes nothing; otherwise it first evicts expired entries (the
post-state retains exactly the purged list) and pushes to the session exactly
one buffer equal to the concatenation of all retained frames' bytes in enqueue
order — or nothing when no retained bytes remain after eviction. -/
theorem c2_replay_concatenation (st : PubState) (now : Int) :
    (transientLocalPushHandler st now).1
        = (if st.setting.buffer_max_count = 0 then st
           else { st with transient_local :=
                    purgeExpiredTransientLocalBuffers st.setting now st.transient_local })
      ∧ (transientLocalPushHandler st now).2
        = (if st.setting.buffer_max_count = 0
              ∨ ((purgeExpiredTransientLocalBuffers st.setting now
                    st.transient_local).map (·.buffer)).flatten = []
           then none
           else some ((purgeExpiredTransientLocalBuffers st.setting now
                    st.transient_local).map (·.buffer)).flatten) := by
  by_cases h0 : st.setting.buffer_max_count = 0
  · simp [transientLocalPushHandler, h0]
  · by_cases hb : ((purgeExpiredTransientLocalBuffers st.setting now
        st.transient_local).map (·.buffer)).flatten = []
    · by_cases hm : (purgeExpiredTransientLocalBuffers st.setting now
          st.transient_local).map (·.buffer) = []
      · simp [transientLocalPushHandler, h0, hm, hb]
      · simp [transientLocalPushHandler, h0, hm, hb]
    · have hm : ¬((purgeExpiredTransientLocalBuffers st.setting now
          st.transient_local).map (·.buffer) = []) := by
        intro he
        rw [he] at hb
        simp at hb
      simp [transientLocalPushHandler, h0, hm, hb]

/-! ### Claim C6 -/

/-- C6: `send` on a running publisher returns true without allocating a buffer
or dispatching anything when the session set is empty and transient-local is
disabled; with transient-local enabled it proceeds even with zero sessions,
building the frame and appending it to the transient-local buffer with
eviction. -/
theorem c6_send_no_subscriber (st : PubState) (old : List Nat) (now : Int)
    (ps : List Payload)
    (hrun : st.is_running = true) (hempty : st.sessions = []) :
    (st.setting.buffer_max_count = 0 →
        sendModel st old now ps
          = { result := true, allocated := false, dispatched := none, state := st,
              logs := [] })
      ∧ (0 < st.setting.buffer_max_count →
        sendModel st old now ps
          = { result := true, allocated := true,
              dispatched := some (sendFillBuffer old ps),
              state := { st with transient_local := (purgeExpiredTransientLocalBuffers
                st.setting now (st.transient_local ++ [⟨sendFillBuffer old ps, now⟩])) },
              logs := [] }) := by
  constructor
  · intro h0
    simp [sendModel, hrun, h0, hempty]
  · intro hpos
    have h0 : ¬(st.setting.buffer_max_count = 0 ∧ st.sessions = []) := fun hc => by omega
    simp [sendModel, hrun, h0, hpos]

/-- A concrete running publisher with no session and transient-local enabled. -/
def wStTL : PubState := ⟨true, [], ⟨2, 0⟩, []⟩

theorem c6_send_no_subscriber_witness :
    (wStTL.setting.buffer_max_count = 0 →
        sendModel wStTL wOld 7 wPs
          = { result := true, allocated := false, dispatched := none, state := wStTL,
              logs := [] })
      ∧ (0 < wStTL.setting.buffer_max_count →
        sendModel wStTL wOld 7 wPs
          = { result := true, allocated := true,
              dispatched := some (sendFillBuffer wOld wPs),
              state := { wStTL with transient_local := (purgeExpiredTransientLocalBuffers
                wStTL.setting 7 (wStTL.transient_local ++ [⟨sendFillBuffer wOld wPs, 7⟩])) },
              logs := [] }) :=
  c6_send_no_subscriber wStTL wOld 7 wPs (by decide) (by decide)

/-! ### Claim C7 -/

/-- C7: `send` returns false iff the publisher is not running; in that case it
logs one Error record and has no side effects (no pool checkout, no dispatch,
unchanged state); in every other case it returns true. -/
theorem c7_send_false_iff_not_running (st : PubState) (old : List Nat) (now : Int)
    (ps : List Payload) :
    ((sendModel st old now ps).result = false ↔ st.is_running = false)
      ∧ (st.is_running = false →
          sendModel st old now ps
            = { result := false, allocated := false, dispatched := none, state := st,
                logs := [LogLevel.error] }) := by
  by_cases hrun : st.is_running = false
  · simp [sendModel, hrun]
  · constructor
    · constructor
      · intro hres
        exfalso
        by_cases hsc : st.setting.buffer_max_count = 0 ∧ st.sessions = [] <;>
          simp [sendModel, hrun, hsc] at hres
      · intro h
        exact absurd h hrun
    · intro h
      exact absurd h hrun

/-- A concrete non-running publisher. -/
def wStOff : PubState := ⟨false, [1], ⟨2, 0⟩, [⟨[3], 5⟩]⟩

theorem c7_send_false_iff_not_running_witness :
    ((sendModel wStOff wOld 7 wPs).result = false ↔ wStOff.is_running = false)
      ∧ (wStOff.is_running = false →
          sendModel wStOff wOld 7 wPs
            = { result := false, allocated := false, dispatched := none, state := wStOff,
                logs := [LogLevel.error] }) :=
  c7_send_false_iff_not_running wStOff wOld 7 wPs

/-! ### Claim C5: Publisher_Impl::start -/

/-- The outcome of each fallible asio call `Publisher_Impl::start` performs
(whether the call's `error_code` was clear). -/
structure StartEnv where
  make_address_ok : Bool
  open_ok : Bool
  set_option_ok : Bool
  bind_ok : Bool
  listen_ok : Bool
deriving DecidableEq

/-- The asio operations `Publisher_Impl::start` can attempt, in source order:
parse the address, `acceptor_.open`, `acceptor_.set_option(reuse_address)`,
`acceptor_.bind`, `acceptor_.listen`. -/
inductive StartStep
  | parseAddr
  | openAcceptor
  | setReuseAddress
  | bindAcceptor
  | listenAcceptor
deriving DecidableEq

/-- What one call to `Publisher_Impl::start` produces: its boolean result, the
final `is_running_` flag, whether `acceptClient()` was invoked (the accept loop
armed), the asio steps attempted in order, and the non-debug log records. -/
structure StartOutcome where
  result : Bool
  is_running : Bool
  accept_armed : Bool
  steps : List StartStep
  logs : List LogLevel
deriving DecidableEq

/-- `Publisher_Impl::start` (publisher_impl.cpp lines 51-129): parse the
address, then open → set reuse-address → bind → listen, each step returning
early with `false` and one Error log when its `error_code` is set; only after
all steps succeed does it log Info, set `is_running_ = true` and call
`acceptClient()`. -/
def startModel (env : StartEnv) : StartOutcome :=
  if env.make_address_ok = false then
    { result := false, is_running := false, accept_armed := false,
      steps := [StartStep.parseAddr], logs := [LogLevel.error] }
  else if env.open_ok = false then
    { result := false, is_running := false, accept_armed := false,
      steps := [StartStep.parseAddr, StartStep.openAcceptor], logs := [LogLevel.error] }
  else if env.set_option_ok = false then
    { result := false, is_running := false, accept_armed := false,
      steps := [StartStep.parseAddr, StartStep.openAcceptor, StartStep.setReuseAddress],
      logs := [LogLevel.error] }
  else if env.bind_ok = false then
    { result := false, is_running := false, accept_armed := false,
      steps := [StartStep.parseAddr, StartStep.openAcceptor, StartStep.setReuseAddress,
        StartStep.bindAcceptor],
      logs := [LogLevel.error] }
  else if env.listen_ok = false then
    { result := false, is_running := false, accept_armed := false,
      steps := [StartStep.parseAddr, StartStep.openAcceptor, StartStep.setReuseAddress,
        StartStep.bindAcceptor, StartStep.listenAcceptor],
      logs := [LogLevel.error] }
  else
    { result := true, is_running := true, accept_armed := true,
      steps := [StartStep.parseAddr, StartStep.openAcceptor, StartStep.setReuseAddress,
        StartStep.bindAcceptor, StartStep.listenAcceptor],
      logs := [LogLevel.info] }

/-- C5: `start` performs open, set reuse-address, bind and listen in that order
(its attempted step list is always an initial segment of the full ordered
sequence and contains each step at most once, in order); it returns true iff
every step succeeded; on any failure it returns false, logs an Error, and
leaves the publisher non-running with the accept loop unarmed; only when all
steps succeed does it set `is_running` and begin accepting. -/
theorem c5_start_failfast (env : StartEnv) :
    ((startModel env).steps).Sublist
        [StartStep.parseAddr, StartStep.openAcceptor, StartStep.setReuseAddress,
          StartStep.bindAcceptor, StartStep.listenAcceptor]
      ∧ ((startModel env).result
          = (env.make_address_ok && env.open_ok && env.set_option_ok && env.bind_ok
              && env.listen_ok))
      ∧ ((startModel env).result = false →
          (startModel env).is_running = false
            ∧ (startModel env).accept_armed = false
            ∧ (startModel env).logs = [LogLevel.error])
      ∧ ((startModel env).result = true →
          (startModel env).is_running = true
            ∧ (startModel env).accept_armed = true
            ∧ (startModel env).logs = [LogLevel.info]) := by
  obtain ⟨a, b, c, d, e⟩ := env
  cases a <;> cases b <;> cases c <;> cases d <;> cases e <;>
    refine ⟨?_, by decide, by decide, by decide⟩ <;> decide

theorem c5_start_failfast_witness :
    ((startModel ⟨true, true, true, false, true⟩).steps).Sublist
        [StartStep.parseAddr, StartStep.openAcceptor, StartStep.setReuseAddress,
          StartStep.bindAcceptor, StartStep.listenAcceptor]
      ∧ ((startModel ⟨true, true, true, false, true⟩).result
          = (true && true && true && false && true))
      ∧ ((startModel ⟨true, true, true, false, true⟩).result = false →
          (startModel ⟨true, true, true, false, true⟩).is_running = false
            ∧ (startModel ⟨true, true, true, false, true⟩).accept_armed = false
            ∧ (startModel ⟨true, true, true, false, true⟩).logs = [LogLevel.error])
      ∧ ((startModel ⟨true, true, true, false, true⟩).result = true →
          (startModel ⟨true, true, true, false, true⟩).is_running = true
            ∧ (startModel ⟨true, true, true, false, true⟩).accept_armed = true
            ∧ (startModel ⟨true, true, true, false, true⟩).logs = [LogLevel.info]) :=
  c5_start_failfast ⟨true, true, true, false, true⟩

/-! ### Claim C8: Publisher cancel -/

/-- One publisher session as the cancel path sees it: its identity, whether its
socket is still open, and how many times its close-callback has fired. -/
structure CSessionRec where
  id : Nat
  socket_open : Bool
  closed_fired : Nat
deriving DecidableEq

/-- The publisher state touched by `Publisher_Impl::cancel`: the acceptor, the
`is_running_` flag, every session ever created (`all`), and the ids currently
in `publisher_sessions_` (`active`). -/
structure CancelState where
  acceptor_open : Bool
  is_running : Bool
  all : List CSessionRec
  active : List Nat
deriving DecidableEq

/-- A record matching id `i` whose socket is still open. -/
def recMatches (i : Nat) (r : CSessionRec) : Bool := r.id == i && r.socket_open

/-- Modelled from the spec: `PublisherSession::cancel` (publisher_session.cpp is
not in src) closes the session's socket; per spec §4.4/§5 the close fires the
session's close-callback exactly once, which runs
`publisher_session_closed_handler` (publisher_impl.cpp lines 164-181) and
removes the session from the publisher's set.  Cancelling an already-closed
session does nothing (no further callback). -/
def sessionCancel (st : CancelState) (i : Nat) : CancelState :=
  if st.all.any (recMatches i) then
    { st with
      all := st.all.map fun r =>
        if recMatches i r then
          { r with socket_open := false, closed_fired := r.closed_fired + 1 }
        else r,
      active := st.active.filter fun j => j != i }
  else st

/-- `Publisher_Impl::cancel` (publisher_impl.cpp lines 131-156): close and
cancel the acceptor, flip `is_running_` to false, snapshot the session set
under the lock, then cancel every snapshotted session. -/
def cancelModel (st : CancelState) : CancelState :=
  let st1 := { st with acceptor_open := false, is_running := false }
  st1.active.foldl sessionCancel st1

/-- `Publisher::~Publisher` (in src, merged after executor_impl.cpp): the
destructor's entire body is a call to `cancel`. -/
def publisherDestructorModel (st : CancelState) : CancelState := cancelModel st

theorem sessionCancel_any_self (st : CancelState) (i : Nat) :
    (sessionCancel st i).all.any (recMatches i) = false := by
  cases h : st.all.any (recMatches i) with
  | false => simp [sessionCancel, h]
  | true =>
    simp only [sessionCancel, h]
    simp only [List.any_map, if_pos]
    rw [List.any_eq_false]
    intro r _
    simp only [Function.comp_apply]
    cases hm : recMatches i r with
    | false => simp [hm]
    | true => simp [hm, recMatches]

theorem sessionCancel_any_mono (st : CancelState) (k j : Nat)
    (h : st.all.any (recMatches j) = false) :
    (sessionCancel st k).all.any (recMatches j) = false := by
  cases hk : st.all.any (recMatches k) with
  | false => simpa [sessionCancel, hk] using h
  | true =>
    simp only [sessionCancel, hk]
    simp only [List.any_map, if_pos]
    rw [List.any_eq_false]
    intro r hr
    have hrj : recMatches j r = false := by
      rw [List.any_eq_false] at h
      simpa using h r hr
    simp only [Function.comp_apply]
    cases hm : recMatches k r with
    | false => simp [hm, hrj]
    | true =>
      simp only [hm, if_pos]
      simp [recMatches]

theorem foldl_any_mono (j : Nat) :
    ∀ (l : List Nat) (st : CancelState), st.all.any (recMatches j) = false →
      (l.foldl sessionCancel st).all.any (recMatches j) = false := by
  intro l
  induction l with
  | nil => intro st h; simpa using h
  | cons k rest ih =>
    intro st h
    exact ih (sessionCancel st k) (sessionCancel_any_mono st k j h)

theorem foldl_any_self (j : Nat) :
    ∀ (l : List Nat) (st : CancelState), j ∈ l →
      (l.foldl sessionCancel st).all.any (recMatches j) = false := by
  intro l
  induction l with
  | nil => intro st h; simp at h
  | cons k rest ih =>
    intro st h
    rcases List.mem_cons.mp h with rfl | hmem
    · exact foldl_any_mono j rest (sessionCancel st j) (sessionCancel_any_self st j)
    · exact ih (sessionCancel st k) hmem

theorem sessionCancel_active_sub (st : CancelState) (k j : Nat)
    (h : j ∈ (sessionCancel st k).active) : j ∈ st.active := by
  cases hk : st.all.any (recMatches k) with
  | false =>
    simp only [sessionCancel, hk] at h
    simpa using h
  | true =>
    simp only [sessionCancel, hk, if_pos] at h
    exact List.mem_of_mem_filter h

theorem foldl_active_sub (j : Nat) :
    ∀ (l : List Nat) (st : CancelState),
      j ∈ (l.foldl sessionCancel st).active → j ∈ st.active := by
  intro l
  induction l with
  | nil => intro st h; simpa using h
  | cons k rest ih =>
    intro st h
    exact sessionCancel_active_sub st k j (ih (sessionCancel st k) h)

theorem sessionCancel_flags (st : CancelState) (k : Nat) :
    (sessionCancel st k).acceptor_open = st.acceptor_open
      ∧ (sessionCancel st k).is_running = st.is_running := by
  cases hk : st.all.any (recMatches k) <;> simp [sessionCancel, hk]

theorem foldl_flags :
    ∀ (l : List Nat) (st : CancelState),
      (l.foldl sessionCancel st).acceptor_open = st.acceptor_open
        ∧ (l.foldl sessionCancel st).is_running = st.is_running := by
  intro l
  induction l with
  | nil => intro st; exact ⟨rfl, rfl⟩
  | cons k rest ih =>
    intro st
    obtain ⟨h1, h2⟩ := ih (sessionCancel st k)
    obtain ⟨h3, h4⟩ := sessionCancel_flags st k
    exact ⟨h1.trans h3, h2.trans h4⟩

theorem clean_foldl_id :
    ∀ (l : List Nat) (st : CancelState),
      (∀ j ∈ l, st.all.any (recMatches j) = false) →
      l.foldl sessionCancel st = st := by
  intro l
  induction l with
  | nil => intro st _; rfl
  | cons k rest ih =>
    intro st h
    have hk : sessionCancel st k = st := by
      have hb := h k (by simp)
      simp [sessionCancel, hb]
    rw [List.foldl_cons, hk]
    exact ih st (fun j hj => h j (by simp [hj]))

theorem flags_false_eta (s : CancelState)
    (h1 : s.acceptor_open = false) (h2 : s.is_running = false) :
    ({ s with acceptor_open := false, is_running := false } : CancelState) = s := by
  obtain ⟨a, b, c, d⟩ := s
  simp only at h1 h2
  rw [h1, h2]

/-- C8: publisher cancel is idempotent — cancelling twice yields the same end
state (acceptor closed, running false, every snapshotted session's socket
closed) as cancelling once, and since the close-callback counters are part of
the state, no duplicate close-callbacks fire; the destructor of `Publisher`
invokes `cancel`. -/
theorem c8_cancel_idempotent (st : CancelState) :
    cancelModel (cancelModel st) = cancelModel st
      ∧ publisherDestructorModel st = cancelModel st
      ∧ (cancelModel st).acceptor_open = false
      ∧ (cancelModel st).is_running = false
      ∧ (∀ j ∈ st.active, (cancelModel st).all.any (recMatches j) = false) := by
  have hflags := foldl_flags st.active { st with acceptor_open := false, is_running := false }
  have hao : (cancelModel st).acceptor_open = false := by
    rw [cancelModel]
    exact hflags.1
  have hir : (cancelModel st).is_running = false := by
    rw [cancelModel]
    exact hflags.2
  have hclosed : ∀ j ∈ st.active, (cancelModel st).all.any (recMatches j) = false := by
    intro j hj
    rw [cancelModel]
    exact foldl_any_self j st.active _ hj
  refine ⟨?_, rfl, hao, hir, hclosed⟩
  have heta := flags_false_eta (cancelModel st) hao hir
  show cancelModel (cancelModel st) = cancelModel st
  rw [cancelModel, heta]
  apply clean_foldl_id
  intro j hj
  have hj' : j ∈ st.active := by
    have := foldl_active_sub j st.active _ hj
    simpa using this
  exact hclosed j hj'

/-! ### Claim C4: session-set membership -/

/-- Modelled from the spec: the publisher-side handshake states of a
`PublisherSession` (publisher_session.cpp is not in src; spec §4.4). -/
inductive HandshakeState
  | awaitLocalSend
  | awaitRemoteRecv
  | established
  | failed
deriving DecidableEq

/-- One publisher session: its identity (accept order), handshake state,
socket flag, and how many times its close-callback has fired. -/
structure SessionRec where
  id : Nat
  hs : HandshakeState
  socket_open : Bool
  closed_fired : Nat
deriving DecidableEq

/-- The accept-loop system: every session ever accepted (the n-th accepted
session has id n) and the ids currently in `publisher_sessions_`. -/
structure AcceptSystem where
  accepted : List SessionRec
  active : List Nat
deriving DecidableEq

/-- The record update `establish` performs on the session with id `i`. -/
def estRec (i : Nat) (r : SessionRec) : SessionRec :=
  if r.id = i then { r with hs := HandshakeState.established } else r

/-- The record update `close` performs on the session with id `i`: socket
closed, terminal state, close-callback fired once more. -/
def closeRec (i : Nat) (r : SessionRec) : SessionRec :=
  if r.id = i then
    { r with
        hs := HandshakeState.failed
        socket_open := false
        closed_fired := r.closed_fired + 1 }
  else r

/-- One step of the accept/handshake/close lifecycle.

`accept` is `acceptClient`'s completion handler (publisher_impl.cpp lines
216-245): on a successful accept the new session is started —
`session->start()` queues the local handshake, taking the session to
`AwaitRemoteRecv` (modelled from the spec §4.4, publisher_session.cpp not in
src) — and the session is then immediately appended to `publisher_sessions_`,
before any handshake byte from the subscriber has been read.

`establish` is the session's handshake completion (modelled from the spec:
AwaitRemoteRecv → Established); it does not touch the session set.

`close` is any socket close or I/O error: the socket closes, the state becomes
terminal, the close-callback fires exactly once (spec §4.4) and runs
`publisher_session_closed_handler` (publisher_impl.cpp lines 164-181), erasing
the session from the set. -/
inductive SysStep : AcceptSystem → AcceptSystem → Prop
  | accept (s : AcceptSystem) :
      SysStep s
        ⟨s.accepted ++ [⟨s.accepted.length, HandshakeState.awaitRemoteRecv, true, 0⟩],
          s.active ++ [s.accepted.length]⟩
  | establish (s : AcceptSystem) (i : Nat)
      (h : ∃ r ∈ s.accepted, r.id = i ∧ r.hs = HandshakeState.awaitRemoteRecv
            ∧ r.socket_open = true) :
      SysStep s ⟨s.accepted.map (estRec i), s.active⟩
  | close (s : AcceptSystem) (i : Nat)
      (h : ∃ r ∈ s.accepted, r.id = i ∧ r.socket_open = true) :
      SysStep s
        ⟨s.accepted.map (closeRec i), s.active.filter fun j => j != i⟩

/-- The states the accept loop can reach from a fresh publisher. -/
inductive SysReachable : AcceptSystem → Prop
  | init : SysReachable ⟨[], []⟩
  | step {s t : AcceptSystem} : SysReachable s → SysStep s t → SysReachable t

/-- The property claim C4 asserts of every reachable state: a session is in the
set iff its socket is open and it has passed the `AwaitRemoteRecv` handshake
state (i.e. reached `Established`). -/
def inSetIffPassed (s : AcceptSystem) : Prop :=
  ∀ r ∈ s.accepted,
    (r.id ∈ s.active ↔ (r.socket_open = true ∧ r.hs = HandshakeState.established))

/-- The state right after one successful accept. -/
def sysAfterAccept : AcceptSystem :=
  ⟨[⟨0, HandshakeState.awaitRemoteRecv, true, 0⟩], [0]⟩

/-- The inductive invariant of the accept system. -/
def SysInv (s : AcceptSystem) : Prop :=
  (∀ r ∈ s.accepted, r.id < s.accepted.length)
    ∧ (s.accepted.map SessionRec.id).Nodup
    ∧ (∀ r ∈ s.accepted, (r.id ∈ s.active ↔ r.socket_open = true))
    ∧ (∀ r ∈ s.accepted, r.closed_fired ≤ 1 ∧ (r.socket_open = true ↔ r.closed_fired = 0))
    ∧ (∀ i ∈ s.active, ∃ r ∈ s.accepted, r.id = i)

theorem estRec_id (i : Nat) (r : SessionRec) : (estRec i r).id = r.id := by
  by_cases hri : r.id = i <;> simp [estRec, hri]

theorem estRec_open (i : Nat) (r : SessionRec) : (estRec i r).socket_open = r.socket_open := by
  by_cases hri : r.id = i <;> simp [estRec, hri]

theorem estRec_fired (i : Nat) (r : SessionRec) : (estRec i r).closed_fired = r.closed_fired := by
  by_cases hri : r.id = i <;> simp [estRec, hri]

theorem closeRec_id (i : Nat) (r : SessionRec) : (closeRec i r).id = r.id := by
  by_cases hri : r.id = i <;> simp [closeRec, hri]

theorem sysInv_step {s t : AcceptSystem} (hstep : SysStep s t) (ih : SysInv s) :
    SysInv t := by
  obtain ⟨ih1, ih2, ih3, ih4, ih5⟩ := ih
  cases hstep with
  | accept =>
    refine ⟨?_, ?_, ?_, ?_, ?_⟩
    · intro r hr'
      simp only [List.length_append, List.length_cons, List.length_nil]
      rcases List.mem_append.mp hr' with hm | hm
      · have := ih1 r hm
        omega
      · simp only [List.mem_singleton] at hm
        subst hm
        simp only
        omega
    · show ((s.accepted ++ [_]).map SessionRec.id).Nodup
      simp only [List.map_append, List.map_cons, List.map_nil]
      rw [List.nodup_append]
      refine ⟨ih2, by simp, ?_⟩
      intro x hx
      rcases List.mem_map.mp hx with ⟨r, hr', rfl⟩
      have := ih1 r hr'
      simp only [List.mem_singleton]
      omega
    · intro r hr'
      rcases List.mem_append.mp hr' with hm | hm
      · have hlt := ih1 r hm
        have hne : r.id ≠ s.accepted.length := by omega
        show r.id ∈ s.active ++ [s.accepted.length] ↔ r.socket_open = true
        rw [List.mem_append]
        simp only [List.mem_singleton, hne, or_false]
        exact ih3 r hm
      · simp only [List.mem_singleton] at hm
        subst hm
        simp
    · intro r hr'
      rcases List.mem_append.mp hr' with hm | hm
      · exact ih4 r hm
      · simp only [List.mem_singleton] at hm
        subst hm
        simp
    · intro i hi
      rcases List.mem_append.mp hi with hm | hm
      · rcases ih5 i hm with ⟨r, hr', hid⟩
        exact ⟨r, List.mem_append_left _ hr', hid⟩
      · simp only [List.mem_singleton] at hm
        subst hm
        exact ⟨⟨s.accepted.length, HandshakeState.awaitRemoteRecv, true, 0⟩,
          List.mem_append_right _ (by simp), rfl⟩
  | establish i hex =>
    refine ⟨?_, ?_, ?_, ?_, ?_⟩
    · intro r' hr'
      rcases List.mem_map.mp hr' with ⟨r, hm, rfl⟩
      rw [estRec_id]
      show r.id < (s.accepted.map (estRec i)).length
      rw [List.length_map]
      exact ih1 r hm
    · show ((s.accepted.map (estRec i)).map SessionRec.id).Nodup
      rw [List.map_map]
      have hcomp : (SessionRec.id ∘ estRec i) = SessionRec.id := by
        funext r
        exact estRec_id i r
      rw [hcomp]
      exact ih2
    · intro r' hr'
      rcases List.mem_map.mp hr' with ⟨r, hm, rfl⟩
      rw [estRec_id, estRec_open]
      exact ih3 r hm
    · intro r' hr'
      rcases List.mem_map.mp hr' with ⟨r, hm, rfl⟩
      rw [estRec_open, estRec_fired]
      exact ih4 r hm
    · intro j hj
      rcases ih5 j hj with ⟨r, hm, hidr⟩
      refine ⟨estRec i r, List.mem_map_of_mem _ hm, ?_⟩
      rw [estRec_id]
      exact hidr
  | close i hex =>
    refine ⟨?_, ?_, ?_, ?_, ?_⟩
    · intro r' hr'
      rcases List.mem_map.mp hr' with ⟨r, hm, rfl⟩
      rw [closeRec_id]
      show r.id < (s.accepted.map (closeRec i)).length
      rw [List.length_map]
      exact ih1 r hm
    · show ((s.accepted.map (closeRec i)).map SessionRec.id).Nodup
      rw [List.map_map]
      have hcomp : (SessionRec.id ∘ closeRec i) = SessionRec.id := by
        funext r
        exact closeRec_id i r
      rw [hcomp]
      exact ih2
    · intro r' hr'
      rcases List.mem_map.mp hr' with ⟨r, hm, rfl⟩
      rw [closeRec_id]
      show r.id ∈ s.active.filter (fun j => j != i) ↔ (closeRec i r).socket_open = true
      by_cases hri : r.id = i
      · rw [List.mem_filter]
        constructor
        · intro hmem
          have := hmem.2
          rw [hri] at this
          simp at this
        · intro hop
          rw [closeRec, if_pos hri] at hop
          simp at hop
      · rw [List.mem_filter, closeRec, if_neg hri]
        constructor
        · intro hmem
          exact (ih3 r hm).mp hmem.1
        · intro hop
          exact ⟨(ih3 r hm).mpr hop, by simpa using hri⟩
    · intro r' hr'
      rcases List.mem_map.mp hr' with ⟨r, hm, rfl⟩
      by_cases hri : r.id = i
      · rcases hex with ⟨rx, hrx, hrxid, hrxop⟩
        have hinj : r = rx := by
          have h1 : SessionRec.id r = SessionRec.id rx := by rw [hri, hrxid]
          exact List.inj_on_of_nodup_map ih2 hm hrx h1
        have hf0 : r.closed_fired = 0 := by
          rw [hinj]
          exact (ih4 rx hrx).2.mp hrxop
        rw [closeRec, if_pos hri]
        simp [hf0]
      · rw [closeRec, if_neg hri]
        exact ih4 r hm
    · intro j hj
      have hj' : j ∈ s.active := List.mem_of_mem_filter hj
      rcases ih5 j hj' with ⟨r, hm, hidr⟩
      refine ⟨closeRec i r, List.mem_map_of_mem _ hm, ?_⟩
      rw [closeRec_id]
      exact hidr

theorem sysInv_reachable {s : AcceptSystem} (h : SysReachable s) : SysInv s := by
  induction h with
  | init => refine ⟨?_, ?_, ?_, ?_, ?_⟩ <;> simp
  | step _ hstep ih => exact sysInv_step hstep ih

/-- C4 counterexample: right after one successful accept — a reachable state —
the session is already in `publisher_sessions_` with its socket open but still
in `AwaitRemoteRecv` (`acceptClient` appends it immediately after
`session->start()`), so membership in the set does not require having passed
the `AwaitRemoteRecv` handshake state; the claimed iff fails. -/
theorem c4_counterexample_accept_before_handshake :
    SysReachable sysAfterAccept ∧ ¬ inSetIffPassed sysAfterAccept := by
  constructor
  · have h := SysReachable.step SysReachable.init (SysStep.accept ⟨[], []⟩)
    simpa [sysAfterAccept] using h
  · intro hcl
    have hx := hcl ⟨0, HandshakeState.awaitRemoteRecv, true, 0⟩ (by simp [sysAfterAccept])
    simp [sysAfterAccept] at hx

/-- C4 (amended): at every reachable state of the publisher, a session is in
the sessions set iff its socket is open — membership begins already at accept,
before the handshake completes, not only after `AwaitRemoteRecv` is passed —
and each session is removed exactly once: its close-callback (which performs
the removal) fires never more than once, and has fired exactly once iff its
socket has closed. -/
theorem c4_membership_amended (s : AcceptSystem) (h : SysReachable s) :
    (∀ r ∈ s.accepted, (r.id ∈ s.active ↔ r.socket_open = true))
      ∧ (∀ r ∈ s.accepted, r.closed_fired ≤ 1
          ∧ (r.socket_open = false ↔ r.closed_fired = 1)) := by
  obtain ⟨_, _, h3, h4, _⟩ := sysInv_reachable h
  refine ⟨h3, ?_⟩
  intro r hr
  obtain ⟨hle, hiff⟩ := h4 r hr
  refine ⟨hle, ?_⟩
  cases ho : r.socket_open with
  | true =>
    have h0 : r.closed_fired = 0 := hiff.mp ho
    simp
    omega
  | false =>
    have hne : ¬ r.closed_fired = 0 := fun hc => by
      have hcontra := hiff.mpr hc
      rw [ho] at hcontra
      simp at hcontra
    simp
    omega

theorem c4_membership_amended_witness :
    (∀ r ∈ sysAfterAccept.accepted,
        (r.id ∈ sysAfterAccept.active ↔ r.socket_open = true))
      ∧ (∀ r ∈ sysAfterAccept.accepted, r.closed_fired ≤ 1
          ∧ (r.socket_open = false ↔ r.closed_fired = 1)) :=
  c4_membership_amended sysAfterAccept
    (SysReachable.step SysReachable.init (SysStep.accept ⟨[], []⟩))

/-- A concrete running publisher with transient-local enabled and three
retained frames. -/
def wStRetained : PubState := ⟨true, [], ⟨2, 5⟩, wBuffers⟩

theorem c2_replay_concatenation_witness :
    (transientLocalPushHandler wStRetained 100).1
        = (if wStRetained.setting.buffer_max_count = 0 then wStRetained
           else { wStRetained with transient_local := (purgeExpiredTransientLocalBuffers
                    wStRetained.setting 100 wStRetained.transient_local) })
      ∧ (transientLocalPushHandler wStRetained 100).2
        = (if wStRetained.setting.buffer_max_count = 0
              ∨ ((purgeExpiredTransientLocalBuffers wStRetained.setting 100
                    wStRetained.transient_local).map (·.buffer)).flatten = []
           then none
           else some ((purgeExpiredTransientLocalBuffers wStRetained.setting 100
                    wStRetained.transient_local).map (·.buffer)).flatten) :=
  c2_replay_concatenation wStRetained 100

/-- A concrete cancel-path state: acceptor open, running, one open session and
one already-closed session still lingering in the set. -/
def wCancelSt : CancelState := ⟨true, true, [⟨1, true, 0⟩, ⟨2, false, 1⟩], [1, 2]⟩

theorem c8_cancel_idempotent_witness :
    cancelModel (cancelModel wCancelSt) = cancelModel wCancelSt
      ∧ publisherDestructorModel wCancelSt = cancelModel wCancelSt
      ∧ (cancelModel wCancelSt).acceptor_open = false
      ∧ (cancelModel wCancelSt).is_running = false
      ∧ (∀ j ∈ wCancelSt.active, (cancelModel wCancelSt).all.any (recMatches j) = false) :=
  c8_cancel_idempotent wCancelSt

end TcpPubsub